import Mathlib

/-!
Shallow embedding of the DialoP4 agent framework core mechanisms:
the per-session artifact store (`BaseAgent.save_result` / `load_result`),
the session context persisted by `AgentCoordinator`, the RAG retrieval
pipeline (`RAGEngine`), and the bounded refinement loop (`Refiner.process`).
Definitions are translated from the Python source in `src/app/agents/`.
-/

set_option maxHeartbeats 1000000

/-- JSON-like values, as stored in the context and result files (the fragment
of JSON that the session context and document metadata of this repository use:
strings and string-keyed objects). -/
inductive Json where
  | str : String → Json
  | obj : List (String × Json) → Json
  deriving Repr, Inhabited

mutual

def Json.decEq : (a b : Json) → Decidable (a = b)
  | Json.str x, Json.str y =>
    if h : x = y then Decidable.isTrue (by rw [h])
    else Decidable.isFalse (fun hh => h (Json.str.inj hh))
  | Json.obj xs, Json.obj ys =>
    match Json.decEqFields xs ys with
    | Decidable.isTrue h => Decidable.isTrue (by rw [h])
    | Decidable.isFalse h => Decidable.isFalse (fun hh => h (Json.obj.inj hh))
  | Json.str _, Json.obj _ => Decidable.isFalse (fun h => Json.noConfusion h)
  | Json.obj _, Json.str _ => Decidable.isFalse (fun h => Json.noConfusion h)

def Json.decEqFields : (xs ys : List (String × Json)) → Decidable (xs = ys)
  | [], [] => Decidable.isTrue rfl
  | [], _ :: _ => Decidable.isFalse (fun h => List.noConfusion h)
  | _ :: _, [] => Decidable.isFalse (fun h => List.noConfusion h)
  | (k, v) :: xs, (k', v') :: ys =>
    if hk : k = k' then
      match Json.decEq v v' with
      | Decidable.isTrue hv =>
        match Json.decEqFields xs ys with
        | Decidable.isTrue ht => Decidable.isTrue (by rw [hk, hv, ht])
        | Decidable.isFalse ht =>
          Decidable.isFalse (fun hh => ht (congrArg List.tail hh))
      | Decidable.isFalse hv =>
        Decidable.isFalse (fun hh => by
          injection hh with h1 h2
          exact hv (congrArg Prod.snd h1))
    else
      Decidable.isFalse (fun hh => by
        injection hh with h1 h2
        exact hk (congrArg Prod.fst h1))

end

instance : DecidableEq Json := Json.decEq

namespace BaseAgentM

/-- The envelope written by `BaseAgent.save_result`:
`{id: result_id, type: result_type, agent: self.name,
  timestamp: timestamp, data: result}`. -/
structure ResultRecord (α : Type) where
  id : String
  type_ : String
  agent : String
  timestamp : String
  data : α
  deriving DecidableEq, Repr

/-- A stored file as seen by `load_result`: reading either yields the parsed
record or raises (captured by the `except` branch in the source). -/
inductive FileContent (α : Type) where
  | ok (record : ResultRecord α) : FileContent α
  | unreadable : FileContent α
  deriving DecidableEq, Repr

/-- A file in a conversation directory (name from `{result_type}_{result_id}.json`). -/
structure FileEntry (α : Type) where
  name : String
  content : FileContent α
  deriving DecidableEq, Repr

/-- The scan in `BaseAgent.load_result`: iterate over the `*.json` files in the
conversation directory; a file that fails to load is skipped (`except ... continue`);
the first successfully read record whose `id` matches is returned; otherwise `None`. -/
def scanFiles {α : Type} : List (FileEntry α) → String → Option (ResultRecord α)
  | [], _ => none
  | f :: rest, rid =>
    match f.content with
    | FileContent.unreadable => scanFiles rest rid
    | FileContent.ok r => if r.id = rid then some r else scanFiles rest rid

/-- Model of `BaseAgent.load_result result_id conversation_id`: if the conversation
directory does not exist, return `None`; otherwise scan its files. -/
def load_result {α : Type} (dir : Option (List (FileEntry α))) (result_id : String) :
    Option (ResultRecord α) :=
  match dir with
  | none => none
  | some files => scanFiles files result_id

/-- Model of `BaseAgent.save_result result result_type conversation_id`: create the
conversation directory if absent, generate a fresh `result_id` (uuid4, supplied
here as a parameter), write the envelope to `{result_type}_{result_id}.json`,
and return the file path. -/
def save_result {α : Type} (dir : Option (List (FileEntry α))) (result : α)
    (result_type result_id timestamp agent : String) :
    List (FileEntry α) × String :=
  let files := dir.getD []
  let file_name := result_type ++ "_" ++ result_id ++ ".json"
  (files ++ [⟨file_name, FileContent.ok ⟨result_id, result_type, agent, timestamp, result⟩⟩],
   file_name)

end BaseAgentM

namespace CoordinatorM

/-- A session context: the JSON object persisted in `context.json`
(`AgentCoordinator._save_conversation_context`), insertion-ordered like a
Python dict. -/
abbrev Ctx := List (String × Json)

/-- The conversation store: `conversation_id ↦ context.json` contents, `none`
when the file does not exist. -/
abbrev CtxStore := String → Option Ctx

/-- Python `d[k] = v` on an insertion-ordered dict: overwrite in place if the
key exists, else append. -/
def dictInsert (k : String) (v : Json) : Ctx → Ctx
  | [] => [(k, v)]
  | (k', v') :: rest =>
    if k' = k then (k, v) :: rest else (k', v') :: dictInsert k v rest

/-- Model of `AgentCoordinator._save_conversation_context`: `json.dump(context, f)` —
the stored file is replaced with the given mapping. -/
def save_conversation_context (store : CtxStore) (cid : String) (ctx : Ctx) : CtxStore :=
  fun c => if c = cid then some ctx else store c

/-- Model of `AgentCoordinator._get_conversation_context`: the stored mapping, or `{}`
when the file is absent (or unreadable). -/
def get_conversation_context (store : CtxStore) (cid : String) : Ctx :=
  (store cid).getD []

/-- The context update performed by `AgentCoordinator.analyze_paper`
(coordinator.py lines 198-203): it saves `{paper_analysis: analysis_result}`
without reading the previously stored context. -/
def analyze_paper_save_context (store : CtxStore) (cid : String) (analysis : Json) : CtxStore :=
  save_conversation_context store cid [("paper_analysis", analysis)]

/-- The in-memory context mutation performed by `AgentCoordinator.generate_code`
(coordinator.py lines 239-252): ensure `generated_code` is a dict, then set
`context[generated_code][code_type] = {code_id: ..., result_path: ...}`.
(If the stored `generated_code` value were not a mapping, Python would raise
`TypeError`; that branch is modelled as inserting into an empty dict and never
arises for contexts this coordinator writes.) -/
def generate_code_update (context : Ctx) (code_type result_id result_path : String) : Ctx :=
  let context1 := if (context.lookup "generated_code").isSome then context
                  else dictInsert "generated_code" (Json.obj []) context
  let gc := match context1.lookup "generated_code" with
            | some (Json.obj d) => d
            | _ => []
  let entry := Json.obj [("code_id", Json.str result_id), ("result_path", Json.str result_path)]
  dictInsert "generated_code" (Json.obj (dictInsert code_type entry gc)) context1

/-- The context round trip performed by `AgentCoordinator.generate_code`:
read the stored context, apply the update, write the context back. -/
def generate_code_save_context (store : CtxStore) (cid code_type result_id result_path : String) :
    CtxStore :=
  save_conversation_context store cid
    (generate_code_update (get_conversation_context store cid) code_type result_id result_path)

end CoordinatorM

namespace RagM

/-- Model of `Document` from rag_engine.py, whose constructor sets
`self.id = metadata.get(id, str(uuid.uuid4()))`. -/
structure Document where
  content : String
  metadata : List (String × Json)
  id : Json
  deriving DecidableEq, Repr

instance : Inhabited Document := ⟨⟨"", [], Json.str ""⟩⟩

/-- The `Document.__init__` constructor; `freshId` stands for the
`str(uuid.uuid4())` default used when the metadata has no `id` key. -/
def mkDocument (content : String) (metadata : List (String × Json)) (freshId : String) : Document :=
  { content := content, metadata := metadata,
    id := (metadata.lookup "id").getD (Json.str freshId) }

/-- Model of `RAGEngine.search`: an empty document list short-circuits to `[]`;
otherwise faiss returns `min top_k len(documents)` row indices for the query
embedding (`neighbors` — the embedding is a uniformly random vector in the
reference, so the ranking is an external input to this model) and the result
is the documents at those rows. -/
def search (documents : List Document) (neighbors : List Nat) (top_k : Nat) : List Document :=
  if documents.length = 0 then []
  else (neighbors.take (min top_k documents.length)).map (fun i => documents.getD i default)

/-- The query list built by `RAGEngine.process` lines 403-416: with a paper
context, the LM expansion output split on newlines (`expandedLines`),
otherwise `[query]`; then the original query is appended if not already
present. -/
def enhancedQueries (query : String) (hasPaperContext : Bool) (expandedLines : List String) :
    List String :=
  let eq0 := if hasPaperContext then expandedLines else [query]
  if query ∈ eq0 then eq0 else eq0 ++ [query]

/-- The queries actually searched by `RAGEngine.process` line 420:
`enhanced_queries[:3]`. -/
def searchedQueries (query : String) (hasPaperContext : Bool) (expandedLines : List String) :
    List String :=
  (enhancedQueries query hasPaperContext expandedLines).take 3

/-- The deduplication loop of `RAGEngine.process` lines 424-430: keep the
first occurrence of each `doc.id`, `seen` being the `doc_ids` set. -/
def dedupDocs : List Document → List Json → List Document
  | [], _ => []
  | d :: rest, seen =>
    if d.id ∈ seen then dedupDocs rest seen
    else d :: dedupDocs rest (d.id :: seen)

/-- The result dict built by `RAGEngine.process`. -/
structure RagProcessResult where
  query : String
  enhanced_queries : List String
  retrieved_documents : List Document
  relevance_analysis : String
  reliability_score : String
  integrated_knowledge : String
  deriving Repr

/-- Model of `RAGEngine.process` (retrieval core, lines 403-472): build the query list,
search the first 3 queries with `top_k=3`, concatenate, deduplicate by
document id, cap at 5; on a non-empty result the relevance/integration LM
outputs (parameters here) fill the result, otherwise the fixed
insufficient-knowledge sentinel result is returned. -/
def ragProcess (query : String) (hasPaperContext : Bool) (expandedLines : List String)
    (documents : List Document) (neighbors : String → List Nat)
    (relevance_analysis reliability_score integrated_knowledge : String) : RagProcessResult :=
  let enhanced := enhancedQueries query hasPaperContext expandedLines
  let all_docs := ((enhanced.take 3).map (fun q => search documents (neighbors q) 3)).flatten
  let unique_docs := dedupDocs all_docs []
  let retrieved := unique_docs.take 5
  if 0 < retrieved.length then
    { query := query, enhanced_queries := enhanced, retrieved_documents := retrieved,
      relevance_analysis := relevance_analysis, reliability_score := reliability_score,
      integrated_knowledge := integrated_knowledge }
  else
    { query := query, enhanced_queries := enhanced, retrieved_documents := [],
      relevance_analysis := "没有找到相关文档", reliability_score := "0",
      integrated_knowledge := "没有足够的知识来回答此查询" }

/-- The in-memory knowledge base: the faiss index rows and the aligned
`self.documents` list. -/
structure RagKB (V : Type) where
  indexVectors : List V
  documents : List Document

/-- Inputs of one `add_document` call: content, metadata, the embedding
produced by `_get_embedding` (a random vector in the reference), and the
fresh uuid for the document id default. -/
structure AddReq (V : Type) where
  content : String
  metadata : List (String × Json)
  embedding : V
  freshId : String

/-- Model of `RAGEngine.add_document`: build the `Document`, append the embedding to
the index (`self.index.add`), append the document (`self.documents.append`);
the subsequent `_save_knowledge_base` call is modelled separately. -/
def add_document {V : Type} (kb : RagKB V) (r : AddReq V) : RagKB V :=
  { indexVectors := kb.indexVectors ++ [r.embedding],
    documents := kb.documents ++ [mkDocument r.content r.metadata r.freshId] }

/-- The two co-located files written by `_save_knowledge_base`:
`index.faiss` and `documents.json` (each document serialized as its content
and metadata). -/
structure SavedKB (V : Type) where
  indexFile : List V
  docsFile : List (String × List (String × Json))

/-- Model of `RAGEngine._save_knowledge_base`: write the index and the serialized
document list. -/
def save_knowledge_base {V : Type} (kb : RagKB V) : SavedKB V :=
  { indexFile := kb.indexVectors,
    docsFile := kb.documents.map (fun d => (d.content, d.metadata)) }

/-- Model of `RAGEngine._load_knowledge_base` (success path): read the index back and
rebuild each document with `Document(doc[content], doc[metadata])`;
`freshIds` supplies the uuid defaults for documents whose metadata has no
`id` key. -/
def load_knowledge_base {V : Type} (s : SavedKB V) (freshIds : Nat → String) : RagKB V :=
  { indexVectors := s.indexFile,
    documents := s.docsFile.enum.map (fun p => mkDocument p.2.1 p.2.2 (freshIds p.1)) }

/-- Model of `RAGEngine._init_vector_store` before any load: an empty index and an
empty document list. -/
def emptyKB (V : Type) : RagKB V := ⟨[], []⟩

end RagM

namespace RefinerM

/-- Python `p == s[:len(p)]` building block: do the characters of the pattern
appear at the head of the list? -/
def charsStartWith : List Char → List Char → Bool
  | [], _ => true
  | _ :: _, [] => false
  | p :: ps, c :: cs => p == c && charsStartWith ps cs

/-- Does the pattern occur contiguously anywhere in the character list? -/
def charsContain (pat : List Char) : List Char → Bool
  | [] => charsStartWith pat []
  | c :: rest => charsStartWith pat (c :: rest) || charsContain pat rest

/-- Model of the Python `pat in s` substring test. -/
def strContains (s pat : String) : Bool := charsContain pat.data s.data

/-- Model of the Python `s.lower()` call (characterwise, as `String.toLower` does). -/
def strLower (s : String) : String := ⟨s.data.map Char.toLower⟩

/-- Output fields of the `RefinementPlanner` LM call. -/
structure PlannerOut where
  refinement_plan : String
  prioritized_changes : String
  deriving Repr

/-- Output fields of the `CodeRefiner` LM call. -/
structure RefineOut where
  refined_code : String
  changelog : String
  deriving Repr

/-- Output fields of the `SelfEvaluator` LM call. -/
structure EvalOut where
  improvement_assessment : String
  comparison : String
  remaining_issues : String
  deriving Repr

/-- The three LM collaborators used by `Refiner.process`.  The first `Nat`
argument is the loop iteration index, indexing the successive calls (the LM is
nondeterministic, so the call of each iteration is a separate sample); the
remaining arguments are exactly the input fields passed in the source:
`planner(code, evaluation, user_feedback)`,
`refiner(original_code, refinement_plan, prioritized_changes)`,
`evaluator(original_code, refined_code, refinement_plan, original_evaluation)`. -/
structure RefinerOracle where
  planner : Nat → String → String → String → PlannerOut
  refiner : Nat → String → String → String → RefineOut
  evaluator : Nat → String → String → String → String → EvalOut

/-- One entry of `refinement_history` (`iteration_record` in the source;
`iteration` is stored 1-based). -/
structure IterationRecord where
  iteration : Nat
  plan : PlannerOut
  changes : RefineOut
  evaluation : EvalOut

/-- The `for iteration in range(self.max_iterations)` loop of
`Refiner.process` (refiner.py lines 113-166).  The first `Nat` is the
remaining fuel (`max_iterations - i`), the second the current iteration
index `i`; the early-exit check is
`"no remaining issues" in remaining_issues.lower() or
 ("low priority" in remaining_issues.lower() and iteration >= 1)`,
and `user_feedback` is cleared before the next iteration. -/
def refineGo (oracle : RefinerOracle) (original_code evaluation_json : String) :
    Nat → Nat → String → String → List IterationRecord → String × List IterationRecord
  | 0, _, current_code, _, history => (current_code, history)
  | Nat.succ n, i, current_code, user_feedback, history =>
    let p := oracle.planner i current_code evaluation_json user_feedback
    let r := oracle.refiner i current_code p.refinement_plan p.prioritized_changes
    let e := oracle.evaluator i original_code r.refined_code p.refinement_plan evaluation_json
    let record : IterationRecord := ⟨i + 1, p, r, e⟩
    let history1 := history ++ [record]
    let ri := strLower e.remaining_issues
    if strContains ri "no remaining issues" || (strContains ri "low priority" && decide (1 ≤ i)) then
      (r.refined_code, history1)
    else
      refineGo oracle original_code evaluation_json n (i + 1) r.refined_code "" history1

/-- The result dict built by `Refiner.process`. -/
structure RefinedCodeResult where
  title : String
  code_type : String
  original_code : String
  refined_code : String
  refinement_history : List IterationRecord

/-- Model of `Refiner.process`: run the refinement loop from the original code with the
configured `max_iterations` and package the final code with the full history. -/
def refinerProcess (oracle : RefinerOracle)
    (title code_type original_code evaluation_json user_feedback : String)
    (max_iterations : Nat) : RefinedCodeResult :=
  let out := refineGo oracle original_code evaluation_json max_iterations 0
               original_code user_feedback []
  { title := title, code_type := code_type, original_code := original_code,
    refined_code := out.1, refinement_history := out.2 }

end RefinerM

/-! Helper lemmas. -/

namespace BaseAgentM

theorem scanFiles_append_fresh {α : Type} (files : List (FileEntry α)) (rid : String)
    (e : FileEntry α)
    (hfresh : ∀ f ∈ files, ∀ r, f.content = FileContent.ok r → r.id ≠ rid) :
    scanFiles (files ++ [e]) rid = scanFiles [e] rid := by
  induction files with
  | nil => rfl
  | cons f rest ih =>
    have hrest : ∀ g ∈ rest, ∀ r, g.content = FileContent.ok r → r.id ≠ rid :=
      fun g hg => hfresh g (List.mem_cons_of_mem _ hg)
    cases hc : f.content with
    | unreadable =>
      simp only [List.cons_append, scanFiles, hc]
      exact ih hrest
    | ok r =>
      have hne : r.id ≠ rid := hfresh f (List.mem_cons_self _ _) r hc
      simp only [List.cons_append, scanFiles, hc, if_neg hne]
      exact ih hrest

end BaseAgentM

namespace CoordinatorM

theorem lookup_dictInsert_self (k : String) (v : Json) (d : Ctx) :
    List.lookup k (dictInsert k v d) = some v := by
  induction d with
  | nil => simp [dictInsert, List.lookup_cons]
  | cons p rest ih =>
    obtain ⟨a, b⟩ := p
    by_cases h : a = k
    · subst h
      simp [dictInsert, List.lookup_cons]
    · have hba : (k == a) = false := by
        simp [Ne.symm h]
      simp [dictInsert, h, List.lookup_cons, hba, ih]

theorem lookup_dictInsert_ne (k k' : String) (v : Json) (d : Ctx) (h : k' ≠ k) :
    List.lookup k' (dictInsert k v d) = List.lookup k' d := by
  have hbk : (k' == k) = false := by simp [h]
  induction d with
  | nil => simp [dictInsert, List.lookup_cons, hbk]
  | cons p rest ih =>
    obtain ⟨a, b⟩ := p
    by_cases ha : a = k
    · subst ha
      simp [dictInsert, List.lookup_cons, hbk]
    · simp [dictInsert, ha, List.lookup_cons, ih]

theorem get_save_same (store : CtxStore) (cid : String) (ctx : Ctx) :
    get_conversation_context (save_conversation_context store cid ctx) cid = ctx := by
  simp [get_conversation_context, save_conversation_context]

theorem lookup_generate_code_update_ne (ctx : Ctx) (ct rid rpath k : String)
    (hk : k ≠ "generated_code") :
    List.lookup k (generate_code_update ctx ct rid rpath) = List.lookup k ctx := by
  unfold generate_code_update
  by_cases h : (ctx.lookup "generated_code").isSome <;>
    simp [h, lookup_dictInsert_ne _ _ _ _ hk]

end CoordinatorM

/-! Claim theorems. -/

/-- C1: the spec requires `get`/`load_result` to distinguish "no artifact with
this id" from "storage unreadable" as two distinct error kinds.  The code does
not: evaluating `load_result` on a session directory that contains an artifact
file which is unreadable gives exactly the same not-found outcome (`None`) as
evaluating it on a session whose directory does not exist at all — the read
failure is swallowed by the `except: continue` branch. -/
theorem c1_load_result_conflates_unreadable_with_notFound :
    BaseAgentM.load_result
      (some [⟨"paper_analysis_r1.json", BaseAgentM.FileContent.unreadable (α := Nat)⟩]) "r1"
      = none
    ∧ BaseAgentM.load_result (none : Option (List (BaseAgentM.FileEntry Nat))) "r1" = none :=
  ⟨rfl, rfl⟩

/-- C7: saving a payload `P` with `save_result` under a fresh result id and
then loading that id with `load_result` returns the stored envelope with its
`data` field equal to `P`, unchanged. -/
theorem c7_save_then_load_roundtrip {α : Type} (files : List (BaseAgentM.FileEntry α))
    (P : α) (rt rid ts ag : String)
    (hfresh : ∀ f ∈ files, ∀ r, f.content = BaseAgentM.FileContent.ok r → r.id ≠ rid) :
    BaseAgentM.load_result
        (some (BaseAgentM.save_result (some files) P rt rid ts ag).1) rid
      = some ⟨rid, rt, ag, ts, P⟩ := by
  unfold BaseAgentM.load_result BaseAgentM.save_result
  simp only [Option.getD_some]
  rw [BaseAgentM.scanFiles_append_fresh files rid _ hfresh]
  simp [BaseAgentM.scanFiles]

/-- C7 witness: a concrete round trip through an empty session store. -/
theorem c7_save_then_load_roundtrip_witness :
    BaseAgentM.load_result
        (some (BaseAgentM.save_result (some ([] : List (BaseAgentM.FileEntry Nat)))
                 42 "paper_analysis" "id1" "t0" "PaperAnalyzer").1) "id1"
      = some ⟨"id1", "paper_analysis", "PaperAnalyzer", "t0", 42⟩ :=
  c7_save_then_load_roundtrip [] 42 "paper_analysis" "id1" "t0" "PaperAnalyzer"
    (fun f hf => absurd hf (List.not_mem_nil f))

/-- C2: the claim says every update of the persisted session context is a
shallow top-level merge, so a top-level key present before the update and
absent from the partial mapping survives with its old value.  Counterexample:
with `{generated_code: {python: p1}}` stored for session `c1`,
the context update of `analyze_paper` (which writes `{paper_analysis: ...}`
without reading the stored mapping first) erases the `generated_code` key,
although it is absent from the partial mapping being applied. -/
theorem c2_counterexample_analyze_paper_replaces_wholesale :
    (List.lookup "generated_code"
        (CoordinatorM.get_conversation_context
          (CoordinatorM.save_conversation_context (fun _ => none) "c1"
            [("generated_code", Json.obj [("python", Json.str "p1")])]) "c1")
      = some (Json.obj [("python", Json.str "p1")]))
    ∧ (List.lookup "generated_code"
        (CoordinatorM.get_conversation_context
          (CoordinatorM.analyze_paper_save_context
            (CoordinatorM.save_conversation_context (fun _ => none) "c1"
              [("generated_code", Json.obj [("python", Json.str "p1")])])
            "c1" (Json.str "analysisA")) "c1")
      = none) :=
  ⟨rfl, rfl⟩

/-- C2 amended: `_save_conversation_context` itself replaces the stored
mapping with the mapping it is given; the `generate_code` (and likewise
`evaluate_implementation` / `refine_implementation`) call sites implement the
shallow top-level merge by reading the context, updating their own key, and
writing back — so any other top-level key keeps its old value — while
`analyze_paper` writes `{paper_analysis: result}` without reading, replacing
the stored mapping wholesale. -/
theorem c2_amended_merge_per_call_site (store : CoordinatorM.CtxStore)
    (cid k ct rid rpath : String) (v : Json)
    (hk : k ≠ "generated_code")
    (hv : List.lookup k (CoordinatorM.get_conversation_context store cid) = some v) :
    List.lookup k
        (CoordinatorM.get_conversation_context
          (CoordinatorM.generate_code_save_context store cid ct rid rpath) cid)
      = some v
    ∧ ∀ a : Json,
        CoordinatorM.get_conversation_context
            (CoordinatorM.analyze_paper_save_context store cid a) cid
          = [("paper_analysis", a)] := by
  constructor
  · rw [CoordinatorM.generate_code_save_context, CoordinatorM.get_save_same,
        CoordinatorM.lookup_generate_code_update_ne _ _ _ _ _ hk, hv]
  · intro a
    rw [CoordinatorM.analyze_paper_save_context, CoordinatorM.get_save_same]

/-- C2 amended, witness: a concrete session where the `generate_code` update
preserves the unrelated key `paper_analysis` and the `analyze_paper` update
replaces the mapping. -/
theorem c2_amended_merge_per_call_site_witness :
    List.lookup "paper_analysis"
        (CoordinatorM.get_conversation_context
          (CoordinatorM.generate_code_save_context
            (CoordinatorM.save_conversation_context (fun _ => none) "c1"
              [("paper_analysis", Json.str "A")])
            "c1" "python" "id7" "path7") "c1")
      = some (Json.str "A")
    ∧ ∀ a : Json,
        CoordinatorM.get_conversation_context
            (CoordinatorM.analyze_paper_save_context
              (CoordinatorM.save_conversation_context (fun _ => none) "c1"
                [("paper_analysis", Json.str "A")]) "c1" a) "c1"
          = [("paper_analysis", a)] :=
  c2_amended_merge_per_call_site
    (CoordinatorM.save_conversation_context (fun _ => none) "c1"
      [("paper_analysis", Json.str "A")])
    "c1" "paper_analysis" "python" "id7" "path7" (Json.str "A")
    (by decide) rfl

/-- C9: the claim says the orchestrator records only artifact ids and
result-file locations in the session context, never raw payloads.
Counterexample: `analyze_paper` stores the full raw analysis result itself
under the `paper_analysis` key of the session context. -/
theorem c9_counterexample_analyze_paper_stores_raw_payload :
    List.lookup "paper_analysis"
        (CoordinatorM.get_conversation_context
          (CoordinatorM.analyze_paper_save_context (fun _ => none) "c1"
            (Json.obj [("title", Json.str "X"),
                       ("summary", Json.str "the full raw analysis payload")])) "c1")
      = some (Json.obj [("title", Json.str "X"),
                        ("summary", Json.str "the full raw analysis payload")]) :=
  rfl

/-- C9 amended: the `generate_code` (and likewise evaluate/refine) context
updates record only the artifact id and the result-file path — the value
written under `generated_code.<code_type>` is exactly
`{code_id: result_id, result_path: result_path}` — but `analyze_paper`
stores the raw analysis payload under `paper_analysis` (and the chat path
appends raw messages to `conversation_history`). -/
theorem c9_amended_generate_code_records_id_and_path (store : CoordinatorM.CtxStore)
    (cid ct rid rpath : String)
    (h : List.lookup "generated_code" (CoordinatorM.get_conversation_context store cid) = none) :
    List.lookup "generated_code"
        (CoordinatorM.get_conversation_context
          (CoordinatorM.generate_code_save_context store cid ct rid rpath) cid)
      = some (Json.obj [(ct, Json.obj [("code_id", Json.str rid),
                                       ("result_path", Json.str rpath)])]) := by
  rw [CoordinatorM.generate_code_save_context, CoordinatorM.get_save_same]
  unfold CoordinatorM.generate_code_update
  simp [h, CoordinatorM.lookup_dictInsert_self, CoordinatorM.dictInsert]

/-- C9 amended, witness: the update on a fresh session context. -/
theorem c9_amended_generate_code_records_id_and_path_witness :
    List.lookup "generated_code"
        (CoordinatorM.get_conversation_context
          (CoordinatorM.generate_code_save_context (fun _ => none) "c1" "python" "id7" "path7")
          "c1")
      = some (Json.obj [("python", Json.obj [("code_id", Json.str "id7"),
                                             ("result_path", Json.str "path7")])]) :=
  c9_amended_generate_code_records_id_and_path (fun _ => none) "c1" "python" "id7" "path7" rfl

namespace RagM

theorem dedupDocs_nodup_and_disjoint (l : List Document) (seen : List Json) :
    ((dedupDocs l seen).map Document.id).Nodup
    ∧ ∀ j ∈ (dedupDocs l seen).map Document.id, j ∉ seen := by
  induction l generalizing seen with
  | nil => simp [dedupDocs]
  | cons d rest ih =>
    by_cases h : d.id ∈ seen
    · simpa [dedupDocs, h] using ih seen
    · obtain ⟨h1, h2⟩ := ih (d.id :: seen)
      simp only [dedupDocs, if_neg h, List.map_cons, List.nodup_cons]
      refine ⟨⟨fun hmem => h2 _ hmem (List.mem_cons_self _ _), h1⟩, ?_⟩
      intro j hj
      rcases List.mem_cons.mp hj with hj | hj
      · subst hj; exact h
      · exact fun hseen => h2 j hj (List.mem_cons_of_mem _ hseen)

theorem flatten_map_const_nil {β : Type} (l : List β) :
    (l.map (fun _ => ([] : List Document))).flatten = [] := by
  induction l with
  | nil => rfl
  | cons x xs ih => simp [ih]

theorem foldl_add_document {V : Type} (adds : List (AddReq V)) (kb : RagKB V) :
    (adds.foldl add_document kb).documents
        = kb.documents ++ adds.map (fun r => mkDocument r.content r.metadata r.freshId)
    ∧ (adds.foldl add_document kb).indexVectors
        = kb.indexVectors ++ adds.map (fun r => r.embedding) := by
  induction adds generalizing kb with
  | nil => simp
  | cons r rest ih =>
    obtain ⟨h1, h2⟩ := ih (add_document kb r)
    constructor
    · rw [List.foldl_cons, h1]; simp [add_document]
    · rw [List.foldl_cons, h2]; simp [add_document]

end RagM

/-- C3: for every query, expansion output, knowledge-index state, and search
ranking, the document list returned by `RAGEngine.process` contains no two
documents with the same `Document` id and has length at most 5. -/
theorem c3_process_dedups_and_caps (query : String) (hasPc : Bool) (lines : List String)
    (documents : List RagM.Document) (nb : String → List Nat) (ra rs ik : String) :
    (((RagM.ragProcess query hasPc lines documents nb ra rs ik).retrieved_documents).map
        RagM.Document.id).Nodup
    ∧ (RagM.ragProcess query hasPc lines documents nb ra rs ik).retrieved_documents.length ≤ 5 := by
  simp only [RagM.ragProcess]
  split
  · constructor
    · exact ((List.take_sublist _ _).map RagM.Document.id).nodup
        (RagM.dedupDocs_nodup_and_disjoint _ []).1
    · exact List.length_take_le _ _
  · simp

/-- C6: querying against an empty knowledge index returns the fixed
insufficient-knowledge sentinel answer, an empty retrieved-document list, and
the zero reliability score. -/
theorem c6_empty_index_returns_sentinel (query : String) (hasPc : Bool) (lines : List String)
    (nb : String → List Nat) (ra rs ik : String) :
    (RagM.ragProcess query hasPc lines [] nb ra rs ik).retrieved_documents = []
    ∧ (RagM.ragProcess query hasPc lines [] nb ra rs ik).reliability_score = "0"
    ∧ (RagM.ragProcess query hasPc lines [] nb ra rs ik).integrated_knowledge
        = "没有足够的知识来回答此查询" := by
  have hmap : ((RagM.enhancedQueries query hasPc lines).take 3).map
        (fun q => RagM.search [] (nb q) 3)
      = ((RagM.enhancedQueries query hasPc lines).take 3).map
        (fun _ => ([] : List RagM.Document)) :=
    List.map_congr_left (fun q _ => rfl)
  simp only [RagM.ragProcess]
  rw [hmap, RagM.flatten_map_const_nil]
  simp [RagM.dedupDocs]

/-- C8: after any sequence of `add_document` calls starting from the empty
knowledge base, the number of index rows equals the number of documents, the
document of the `i`-th add sits at list position `i` and its embedding at index row
`i`; and saving then reloading the knowledge base restores the index rows and
the aligned content/metadata list unchanged, in the same order. -/
theorem c8_index_and_documents_stay_aligned {V : Type} (adds : List (RagM.AddReq V))
    (g : Nat → String) :
    ((adds.foldl RagM.add_document (RagM.emptyKB V)).indexVectors.length
        = (adds.foldl RagM.add_document (RagM.emptyKB V)).documents.length)
    ∧ (adds.foldl RagM.add_document (RagM.emptyKB V)).documents
        = adds.map (fun r => RagM.mkDocument r.content r.metadata r.freshId)
    ∧ (adds.foldl RagM.add_document (RagM.emptyKB V)).indexVectors
        = adds.map (fun r => r.embedding)
    ∧ (RagM.load_knowledge_base
          (RagM.save_knowledge_base (adds.foldl RagM.add_document (RagM.emptyKB V))) g).indexVectors
        = (adds.foldl RagM.add_document (RagM.emptyKB V)).indexVectors
    ∧ (RagM.load_knowledge_base
          (RagM.save_knowledge_base (adds.foldl RagM.add_document (RagM.emptyKB V))) g).documents.map
          (fun d => (d.content, d.metadata))
        = (adds.foldl RagM.add_document (RagM.emptyKB V)).documents.map
          (fun d => (d.content, d.metadata)) := by
  obtain ⟨hd, hv⟩ := RagM.foldl_add_document adds (RagM.emptyKB V)
  refine ⟨?_, by simpa [RagM.emptyKB] using hd, by simpa [RagM.emptyKB] using hv, rfl, ?_⟩
  · rw [hd, hv]; simp [RagM.emptyKB]
  · show ((RagM.save_knowledge_base _).docsFile.enum.map _).map _ = _
    rw [List.map_map]
    have hfun : ((fun d : RagM.Document => (d.content, d.metadata)) ∘
          (fun p : Nat × (String × List (String × Json)) =>
            RagM.mkDocument p.2.1 p.2.2 (g p.1)))
        = Prod.snd := by
      funext p
      rfl
    rw [hfun, List.enum_map_snd]
    rfl

/-- C10: with a paper context present, if query expansion yields at least 3
lines none of which equals the original query, the original query is appended
after them, and — since only the first 3 queries are searched — the original
query is never itself run against the knowledge index. -/
theorem c10_original_query_not_searched (query : String) (es : List String)
    (h3 : 3 ≤ es.length) (hq : query ∉ es) :
    RagM.enhancedQueries query true es = es ++ [query]
    ∧ query ∉ RagM.searchedQueries query true es := by
  have h1 : RagM.enhancedQueries query true es = es ++ [query] := by
    simp [RagM.enhancedQueries, hq]
  refine ⟨h1, ?_⟩
  rw [RagM.searchedQueries, h1, List.take_append_of_le_length h3]
  exact fun hc => hq (List.take_subset _ _ hc)

/-- C10 witness: three expansion lines, none equal to the original query. -/
theorem c10_original_query_not_searched_witness :
    RagM.enhancedQueries "q" true ["a", "b", "c"] = ["a", "b", "c", "q"]
    ∧ "q" ∉ RagM.searchedQueries "q" true ["a", "b", "c"] :=
  c10_original_query_not_searched "q" ["a", "b", "c"] (by decide) (by decide)

namespace RefinerM

theorem refineGo_length (oracle : RefinerOracle) (oc ej : String) :
    ∀ (n i : Nat) (cc fb : String) (hist : List IterationRecord),
      ((refineGo oracle oc ej n i cc fb hist).2).length ≤ hist.length + n := by
  intro n
  induction n with
  | zero =>
    intro i cc fb hist
    simp [refineGo]
  | succ n ih =>
    intro i cc fb hist
    simp only [refineGo]
    split
    · simp
    · calc ((refineGo oracle oc ej n (i + 1) _ "" _).2).length
          ≤ (hist ++ [_]).length + n := ih _ _ _ _
        _ ≤ hist.length + (n + 1) := by
            simp only [List.length_append, List.length_cons, List.length_nil]
            omega

end RefinerM

/-- C4: the `refinement_history` produced by `Refiner.process` never has more
entries than the configured `max_iterations`, whatever the LM produces. -/
theorem c4_history_bounded_by_max_iterations (oracle : RefinerM.RefinerOracle)
    (title ct oc ej fb : String) (M : Nat) :
    (RefinerM.refinerProcess oracle title ct oc ej fb M).refinement_history.length ≤ M := by
  have h := RefinerM.refineGo_length oracle oc ej M 0 oc fb []
  simpa [RefinerM.refinerProcess] using h

/-- C5: with `max_iterations ≥ 3`, if the self-evaluation carries a
low-priority remaining-issues signal on the first and second iterations and
never a no-remaining-issues signal there, the loop does not stop after
iteration 1 (the low-priority exit also requires `iteration >= 1`) but stops
after iteration 2, so the history has exactly 2 entries. -/
theorem c5_low_priority_stops_after_two (oracle : RefinerM.RefinerOracle)
    (title ct oc ej fb : String) (M : Nat) (hM : 3 ≤ M)
    (hlow0 : ∀ a b c d, RefinerM.strContains
        (RefinerM.strLower (oracle.evaluator 0 a b c d).remaining_issues) "low priority" = true)
    (hno0 : ∀ a b c d, RefinerM.strContains
        (RefinerM.strLower (oracle.evaluator 0 a b c d).remaining_issues) "no remaining issues"
        = false)
    (hlow1 : ∀ a b c d, RefinerM.strContains
        (RefinerM.strLower (oracle.evaluator 1 a b c d).remaining_issues) "low priority" = true)
    (hno1 : ∀ a b c d, RefinerM.strContains
        (RefinerM.strLower (oracle.evaluator 1 a b c d).remaining_issues) "no remaining issues"
        = false) :
    (RefinerM.refinerProcess oracle title ct oc ej fb M).refinement_history.length = 2 := by
  obtain ⟨k, rfl⟩ : ∃ k, M = k + 3 := ⟨M - 3, by omega⟩
  simp only [RefinerM.refinerProcess]
  rw [show k + 3 = Nat.succ (Nat.succ (k + 1)) from rfl]
  simp [RefinerM.refineGo, hno0, hlow0, hno1, hlow1]

/-- C5 witness: a constant evaluator that always reports only low-priority
remaining issues; with `max_iterations = 3` the run stops after 2 iterations. -/
theorem c5_low_priority_stops_after_two_witness :
    (RefinerM.refinerProcess
        { planner := fun _ _ _ _ => ⟨"plan", "changes"⟩
          refiner := fun _ _ _ _ => ⟨"code2", "log"⟩
          evaluator := fun _ _ _ _ _ => ⟨"better", "cmp", "Only low priority issues remain"⟩ }
        "t" "python" "orig" "eval" "fb" 3).refinement_history.length = 2 :=
  c5_low_priority_stops_after_two _ "t" "python" "orig" "eval" "fb" 3 (by omega)
    (fun _ _ _ _ => rfl) (fun _ _ _ _ => rfl)
    (fun _ _ _ _ => rfl) (fun _ _ _ _ => rfl)
